import Mathlib

/-!
Shallow embedding of the glisp interpreter's value model and of the
container / codec builtins from `src/interpreter/listutils.go` and
`src/interpreter/arrayutils.go`, together with theorems settling the
frozen claims about them.

Conventions of the embedding:
* Go's `(Sexp, error)` return pairs become `Sexp × Option Err`
  (`none` = nil error).
* Go byte strings and `SexpData` buffers become `List Nat` (each entry a
  byte value); `SexpStr` is likewise kept as its byte sequence, since the
  interpreter indexes and slices strings by byte.
* `env.Apply(fun, args)` — engine code outside the embedded files — is a
  parameter of each definition that calls it, of type
  `List Sexp → Sexp × Option Err` (the function argument is fixed for the
  whole fold, so `Apply` is passed partially applied to it).
* A Go runtime panic (an unchecked slice expression out of range) is
  modelled as a distinguished outcome, `Option.none` at the outer level,
  separate from an error return.
-/

namespace Glisp

/-- The tagged value model (`Sexp`). `float` carries the IEEE-754 bit
pattern of the Go `float64` (its numeric semantics are never needed by
the embedded operations, only its 8-byte serialization); `char` carries
the Go `rune` (an `Int`, as Go runes are int32 and can be negative);
`hash`, `func` and `regexp` carry opaque identities. -/
inductive Sexp where
  | null : Sexp
  | bool (b : Bool) : Sexp
  | int (n : Int) : Sexp
  | float (bits : Nat) : Sexp
  | char (c : Int) : Sexp
  | str (bytes : List Nat) : Sexp
  | symbol (sname : String) (number : Nat) : Sexp
  | pair (head tail : Sexp) : Sexp
  | array (elems : List Sexp) : Sexp
  | hash (hid : Nat) : Sexp
  | data (bytes : List Nat) : Sexp
  | func (fid : Nat) : Sexp
  | regexp (rid : Nat) : Sexp

/-- Go `error` values returned by the embedded builtins.  `wrongNargs`
is the shared `WrongNargs` variable, `notAList` the shared `NotAList`
variable; ad-hoc `errors.New` / `fmt.Errorf` values are `msg` (with the
format arguments elided from the text). -/
inductive Err where
  | wrongNargs : Err
  | notAList : Err
  | wrongType : Err
  | msg (s : String) : Err
deriving DecidableEq, Repr

/-- The type of `env.Apply` partially applied to the folded/mapped
function: engine code outside the embedded source files. -/
abbrev ApplyFn := List Sexp → Sexp × Option Err

/-- Modelled from the spec: `IsEmpty` is not under `src/`; §3 requires
emptiness-testing to treat Null, empty Str, empty Array, empty Data
uniformly as "absent". -/
def IsEmpty : Sexp → Bool
  | .null => true
  | .str [] => true
  | .array [] => true
  | .data [] => true
  | _ => false

/-- Modelled from the spec: `IsList` is not under `src/`; §3 defines a
proper list as a chain of Pair tails reaching the Null sentinel (Null
itself being the empty list). -/
def IsList : Sexp → Bool
  | .null => true
  | .pair _ tail => IsList tail
  | _ => false

/-- The loop body of `ListToArray` (listutils.go): walks the pair chain
collecting heads; only ever run on values passing `IsList`. -/
def listHeads : Sexp → List Sexp
  | .pair head tail => head :: listHeads tail
  | _ => []

/-- `ListToArray` (listutils.go): rejects non-lists with `NotAList`,
otherwise collects the heads of the chain into an array. -/
def ListToArray (expr : Sexp) : List Sexp × Option Err :=
  if IsList expr then (listHeads expr, none) else ([], some .notAList)

/-- `MakeList` (listutils.go): conses the array elements onto `SexpNull`. -/
def MakeList : List Sexp → Sexp
  | [] => .null
  | x :: xs => .pair x (MakeList xs)

/-- `FoldlArray` (arrayutils.go): loops over the array elements in order,
each step calling `env.Apply(fun, []Sexp{arr[i], acc})`; an error return
aborts at once, handing back the value the failed `Apply` returned
alongside its error. -/
def FoldlArray (ap : ApplyFn) (arr : List Sexp) (acc : Sexp) : Sexp × Option Err :=
  match arr with
  | [] => (acc, none)
  | x :: xs =>
    match ap [x, acc] with
    | (acc2, some e) => (acc2, some e)
    | (acc2, none) => FoldlArray ap xs acc2

/-- `FoldlPair` (listutils.go): walks the pair chain; on a Pair it calls
`env.Apply(fun, []Sexp{pair.head, acc})` and continues on the tail; on the
Null sentinel it returns the accumulator; on any other terminator it
returns `env.Apply(fun, []Sexp{cur, acc})` directly. -/
def FoldlPair (ap : ApplyFn) : Sexp → Sexp → Sexp × Option Err
  | .pair head tail, acc =>
    match ap [head, acc] with
    | (acc2, some e) => (acc2, some e)
    | (acc2, none) => FoldlPair ap tail acc2
  | .null, acc => (acc, none)
  | cur, acc => ap [cur, acc]

/-- `MapList` (listutils.go): applies the function to the head, recurses
on the tail, and rebuilds the pair; a tail that is neither Null nor a
Pair yields the shared `NotAList` error. -/
def MapList (ap : ApplyFn) : Sexp → Sexp × Option Err
  | .null => (.null, none)
  | .pair head tail =>
    match ap [head] with
    | (_, some e) => (.null, some e)
    | (h2, none) =>
      match MapList ap tail with
      | (_, some e) => (.null, some e)
      | (t2, none) => (.pair h2 t2, none)
  | _ => (.null, some .notAList)

/-- `true` exactly on Pair values (the repo's `IsPair` test). -/
def isPair : Sexp → Bool
  | .pair _ _ => true
  | _ => false

/-- A pair chain over the heads `hs` terminated by `v` (proper when `v`
is Null, dotted otherwise). -/
def mkImproper (hs : List Sexp) (v : Sexp) : Sexp := hs.foldr .pair v

theorem makeList_listHeads : ∀ L : Sexp, IsList L = true → MakeList (listHeads L) = L
  | .null, _ => rfl
  | .pair h t, hl => by
    have ht : IsList t = true := hl
    simp [listHeads, MakeList, makeList_listHeads t ht]
  | .bool _, hl => Bool.noConfusion hl
  | .int _, hl => Bool.noConfusion hl
  | .float _, hl => Bool.noConfusion hl
  | .char _, hl => Bool.noConfusion hl
  | .str _, hl => Bool.noConfusion hl
  | .symbol _ _, hl => Bool.noConfusion hl
  | .array _, hl => Bool.noConfusion hl
  | .hash _, hl => Bool.noConfusion hl
  | .data _, hl => Bool.noConfusion hl
  | .func _, hl => Bool.noConfusion hl
  | .regexp _, hl => Bool.noConfusion hl

theorem foldlArray_congr (ap ap' : ApplyFn) (h : ∀ e a, ap [e, a] = ap' [e, a]) :
    ∀ l acc, FoldlArray ap l acc = FoldlArray ap' l acc := by
  intro l
  induction l with
  | nil => intro acc; rfl
  | cons x xs ih =>
    intro acc
    simp only [FoldlArray, h x acc]
    cases ap' [x, acc] with
    | mk v e => cases e <;> simp [ih]

theorem foldlPair_makeList (ap : ApplyFn) :
    ∀ l acc, FoldlPair ap (MakeList l) acc = FoldlArray ap l acc := by
  intro l
  induction l with
  | nil => intro acc; rfl
  | cons x xs ih =>
    intro acc
    simp only [MakeList, FoldlPair, FoldlArray]
    cases ap [x, acc] with
    | mk v e => cases e <;> simp [ih]

theorem foldlArray_pure (ap : ApplyFn) (h : ∀ e a, (ap [e, a]).2 = none) :
    ∀ l acc, FoldlArray ap l acc = (l.foldl (fun a e => (ap [e, a]).1) acc, none) := by
  intro l
  induction l with
  | nil => intro acc; rfl
  | cons x xs ih =>
    intro acc
    have hx : ap [x, acc] = ((ap [x, acc]).1, none) := by
      rw [← h x acc]
    simp only [FoldlArray, List.foldl_cons]
    rw [hx]
    exact ih _

theorem foldlArray_append (ap : ApplyFn) :
    ∀ xs ys acc, FoldlArray ap (xs ++ ys) acc =
      match FoldlArray ap xs acc with
      | (a, some e) => (a, some e)
      | (a, none) => FoldlArray ap ys a := by
  intro xs
  induction xs with
  | nil => intro ys acc; rfl
  | cons x xs ih =>
    intro ys acc
    simp only [List.cons_append, FoldlArray]
    cases ap [x, acc] with
    | mk v e => cases e <;> simp [ih]

theorem foldlArray_abort (ap : ApplyFn) (xs : List Sexp) (acc a : Sexp) (y : Sexp)
    (ys : List Sexp) (v : Sexp) (e : Err) (hxs : FoldlArray ap xs acc = (a, none))
    (hy : ap [y, a] = (v, some e)) : FoldlArray ap (xs ++ y :: ys) acc = (v, some e) := by
  rw [foldlArray_append, hxs]
  simp [FoldlArray, hy]

/-- C6: for every proper list L (a Pair chain ending in the Null
sentinel, the empty list included), `ListToArray` succeeds and
`MakeList` of the resulting array rebuilds a value structurally equal
to L. -/
theorem c6_listToArray_makeList_roundtrip (L : Sexp) (h : IsList L = true) :
    (ListToArray L).2 = none ∧ MakeList (ListToArray L).1 = L := by
  refine ⟨?_, ?_⟩
  · simp [ListToArray, h]
  · simp [ListToArray, h, makeList_listHeads L h]

/-- Witness for C6 at the concrete list (1 2). -/
theorem c6_listToArray_makeList_roundtrip_witness :
    (ListToArray (.pair (.int 1) (.pair (.int 2) .null))).2 = none ∧
      MakeList (ListToArray (.pair (.int 1) (.pair (.int 2) .null))).1 =
        .pair (.int 1) (.pair (.int 2) .null) :=
  c6_listToArray_makeList_roundtrip (.pair (.int 1) (.pair (.int 2) .null)) rfl

/-- C3: foldl over Arrays and proper lists threads the accumulator as
the second argument — (1) the result depends on `Apply` only through
calls of shape `fn(element, acc)`; (2) on a proper list `FoldlPair`
agrees with `FoldlArray` on the elements; (3) when no call errors, the
result is the left fold, one call per element in order; (4) the first
erroring call aborts the fold, returning that call's error together
with the value it handed back. -/
theorem c3_foldl_accumulator_second_abort :
    (∀ ap ap' : ApplyFn, (∀ e a, ap [e, a] = ap' [e, a]) →
      ∀ l acc, FoldlArray ap l acc = FoldlArray ap' l acc) ∧
    (∀ (ap : ApplyFn) l acc, FoldlPair ap (MakeList l) acc = FoldlArray ap l acc) ∧
    (∀ ap : ApplyFn, (∀ e a, (ap [e, a]).2 = none) →
      ∀ l acc, FoldlArray ap l acc = (l.foldl (fun a e => (ap [e, a]).1) acc, none)) ∧
    (∀ (ap : ApplyFn) xs acc a y ys v e, FoldlArray ap xs acc = (a, none) →
      ap [y, a] = (v, some e) → FoldlArray ap (xs ++ y :: ys) acc = (v, some e)) :=
  ⟨foldlArray_congr, foldlPair_makeList, foldlArray_pure,
    fun ap xs acc a y ys v e h1 h2 => foldlArray_abort ap xs acc a y ys v e h1 h2⟩

/-- Witness for C3: folding cons over the array [1, 2] from accumulator
Null builds the reversed list, through the pure-fold clause. -/
theorem c3_foldl_accumulator_second_abort_witness :
    FoldlArray (fun args => (.pair (args.getD 0 .null) (args.getD 1 .null), none))
      [.int 1, .int 2] .null = (.pair (.int 2) (.pair (.int 1) .null), none) := by
  have h := c3_foldl_accumulator_second_abort.2.2.1
    (fun args => (.pair (args.getD 0 .null) (args.getD 1 .null), none))
    (fun e a => rfl) [.int 1, .int 2] .null
  simpa using h

theorem foldlPair_terminal (ap : ApplyFn) :
    ∀ v acc, isPair v = false → v ≠ Sexp.null → FoldlPair ap v acc = ap [v, acc]
  | .null, _, _, hn => absurd rfl hn
  | .pair _ _, _, hp, _ => Bool.noConfusion hp
  | .bool _, _, _, _ => rfl
  | .int _, _, _, _ => rfl
  | .float _, _, _, _ => rfl
  | .char _, _, _, _ => rfl
  | .str _, _, _, _ => rfl
  | .symbol _ _, _, _, _ => rfl
  | .array _, _, _, _ => rfl
  | .hash _, _, _, _ => rfl
  | .data _, _, _, _ => rfl
  | .func _, _, _, _ => rfl
  | .regexp _, _, _, _ => rfl

theorem mapList_terminal (ap : ApplyFn) :
    ∀ v, isPair v = false → v ≠ Sexp.null → MapList ap v = (.null, some .notAList)
  | .null, _, hn => absurd rfl hn
  | .pair _ _, hp, _ => Bool.noConfusion hp
  | .bool _, _, _ => rfl
  | .int _, _, _ => rfl
  | .float _, _, _ => rfl
  | .char _, _, _ => rfl
  | .str _, _, _ => rfl
  | .symbol _ _, _, _ => rfl
  | .array _, _, _ => rfl
  | .hash _, _, _ => rfl
  | .data _, _, _ => rfl
  | .func _, _, _ => rfl
  | .regexp _, _, _ => rfl

theorem foldlPair_mkImproper (ap : ApplyFn) :
    ∀ hs v acc, FoldlPair ap (mkImproper hs v) acc =
      match FoldlArray ap hs acc with
      | (a, some e) => (a, some e)
      | (a, none) => FoldlPair ap v a := by
  intro hs
  induction hs with
  | nil => intro v acc; rfl
  | cons h hs ih =>
    intro v acc
    show FoldlPair ap (.pair h (mkImproper hs v)) acc = _
    simp only [FoldlPair, FoldlArray]
    cases ap [h, acc] with
    | mk w e => cases e <;> simp [ih]

theorem mapList_improper (ap : ApplyFn) (hpure : ∀ x, (ap [x]).2 = none) :
    ∀ hs v, isPair v = false → v ≠ Sexp.null → hs ≠ [] →
      MapList ap (mkImproper hs v) = (.null, some .notAList) := by
  intro hs
  induction hs with
  | nil => intro v _ _ hne; exact absurd rfl hne
  | cons h hs ih =>
    intro v hp hn _
    show MapList ap (.pair h (mkImproper hs v)) = _
    have hh : ap [h] = ((ap [h]).1, none) := by rw [← hpure h]
    have htail : MapList ap (mkImproper hs v) = (.null, some .notAList) := by
      cases hs with
      | nil => exact mapList_terminal ap v hp hn
      | cons y ys => exact ih v hp hn (by simp)
    simp only [MapList]
    rw [hh, htail]

/-- C9: foldl over a dotted chain with heads hs and non-Null, non-Pair
terminator v does not signal NotAList: it behaves exactly like foldl
over the proper list hs ++ [v] — after folding the heads it applies the
function once to v (shape fn(v, acc)) and returns that call's result —
whereas `MapList` on the same dotted input returns the NotAList error. -/
theorem c9_foldl_dotted_list (ap : ApplyFn) (hs : List Sexp) (v acc : Sexp)
    (hp : isPair v = false) (hn : v ≠ Sexp.null) :
    FoldlPair ap (mkImproper hs v) acc = FoldlPair ap (MakeList (hs ++ [v])) acc ∧
    (∀ a, FoldlArray ap hs acc = (a, none) →
      FoldlPair ap (mkImproper hs v) acc = ap [v, a]) ∧
    ((∀ x, (ap [x]).2 = none) → hs ≠ [] →
      MapList ap (mkImproper hs v) = (.null, some .notAList)) := by
  refine ⟨?_, ?_, fun hpure hne => mapList_improper ap hpure hs v hp hn hne⟩
  · rw [foldlPair_makeList, foldlArray_append, foldlPair_mkImproper]
    cases hr : FoldlArray ap hs acc with
    | mk a e =>
      cases e with
      | some err => rfl
      | none =>
        show FoldlPair ap v a = FoldlArray ap [v] a
        rw [foldlPair_terminal ap v a hp hn]
        show _ = match ap [v, a] with
          | (acc2, some e) => (acc2, some e)
          | (acc2, none) => FoldlArray ap [] acc2
        cases ap [v, a] with
        | mk w e => cases e <;> rfl
  · intro a ha
    rw [foldlPair_mkImproper, ha]
    exact foldlPair_terminal ap v a hp hn

/-- A concrete Apply used by witnesses: wraps the argument list in an
array and never errors. -/
def apArr : ApplyFn := fun args => (.array args, none)

/-- Witness for C9: folding over the dotted pair (1 . 2) equals folding
over the proper list (1 2), and ends by applying the function to the
terminator 2. -/
theorem c9_foldl_dotted_list_witness :
    FoldlPair apArr (.pair (.int 1) (.int 2)) (.int 0) =
      FoldlPair apArr (.pair (.int 1) (.pair (.int 2) .null)) (.int 0) ∧
    FoldlPair apArr (.pair (.int 1) (.int 2)) (.int 0) =
      (.array [.int 2, .array [.int 1, .int 0]], none) := by
  have h := c9_foldl_dotted_list apArr [.int 1] (.int 2) (.int 0) rfl
    (fun hh => Sexp.noConfusion hh)
  refine ⟨?_, ?_⟩
  · have h1 := h.1
    simpa [mkImproper, MakeList] using h1
  · have h2 := h.2.1 (.array [.int 1, .int 0]) rfl
    simpa [mkImproper, apArr] using h2

/-- Go sub-slice `l[a:b]` for index pairs the caller knows to be in
range (as in `FoldlData`, whose indices never exceed the length). -/
def subSlice (l : List Nat) (a b : Nat) : List Nat := (l.drop a).take (b - a)

/-- The chunk sequence `FoldlData` (listutils.go) visits: `len/sz` full
chunks `walk[i*sz : i*sz+sz]` followed by the short remainder chunk
`walk[chunks*sz : len]` when `len > chunks*sz`. -/
def dataChunks (walk : List Nat) (sz : Nat) : List (List Nat) :=
  let chunks := walk.length / sz
  (List.range chunks).map (fun i => subSlice walk (i * sz) (i * sz + sz)) ++
    (if chunks * sz < walk.length then [subSlice walk (chunks * sz) walk.length] else [])

/-- The indexed loop of `FoldlData`: `fuel` iterations remain, `i` is the
current chunk index. -/
def foldlDataLoop (ap : ApplyFn) (walk : List Nat) (sz : Nat) :
    Nat → Nat → Sexp → Sexp × Option Err
  | _, 0, acc => (acc, none)
  | i, fuel + 1, acc =>
    match ap [.data (subSlice walk (i * sz) (i * sz + sz)), acc] with
    | (a2, some e) => (a2, some e)
    | (a2, none) => foldlDataLoop ap walk sz (i + 1) fuel a2

/-- `FoldlData` (listutils.go): runs the full-chunk loop, then — when
bytes remain past `chunks*sz` — one further call on the short remainder
chunk, whose result pair is returned as is. -/
def FoldlData (ap : ApplyFn) (walk : List Nat) (acc : Sexp) (sz : Nat) : Sexp × Option Err :=
  let chunks := walk.length / sz
  match foldlDataLoop ap walk sz 0 chunks acc with
  | (a, some e) => (a, some e)
  | (a, none) =>
    if chunks * sz < walk.length then
      match ap [.data (subSlice walk (chunks * sz) walk.length), a] with
      | (a2, some e) => (a2, some e)
      | (a2, none) => (a2, none)
    else (a, none)

/-- Spec-side runner: one Apply call per chunk, in order, abort on the
first error. -/
def chunkRun (ap : ApplyFn) : List (List Nat) → Sexp → Sexp × Option Err
  | [], acc => (acc, none)
  | c :: cs, acc =>
    match ap [.data c, acc] with
    | (a, some e) => (a, some e)
    | (a, none) => chunkRun ap cs a

/-- `FoldLFunction` (listutils.go): arity at least 3, `args[1]` must be
a function, dispatch on `args[0]`; for Data the chunk size is the fourth
argument when it is a positive Int, else 1.  `ap fid` abstracts
`env.Apply` applied to the function with identity `fid`; `foldlHash`
abstracts `FoldlHash`, which lives outside the embedded files. -/
def FoldLFunction (ap : Nat → ApplyFn)
    (foldlHash : Nat → Nat → Sexp → Sexp × Option Err)
    (args : List Sexp) : Sexp × Option Err :=
  if args.length < 3 then (.null, some .wrongNargs)
  else
    match (args[1]? : Option Sexp) with
    | some (Sexp.func fid) =>
      let acc := args.getD 2 .null
      match (args[0]? : Option Sexp) with
      | some (Sexp.array es) => FoldlArray (ap fid) es acc
      | some (Sexp.pair h t) => FoldlPair (ap fid) (.pair h t) acc
      | some (Sexp.hash hid) => foldlHash fid hid acc
      | some (Sexp.data bs) =>
        let chunkSz :=
          match (args[3]? : Option Sexp) with
          | some (Sexp.int sz) => if 0 < sz then sz.toNat else 1
          | _ => 1
        FoldlData (ap fid) bs acc chunkSz
      | _ => (.null, some (.msg "second argument must be pair, array, list, hash, or data"))
    | _ => (.null, some (.msg "first argument must be function"))

theorem ceil_div_eq (n k : Nat) (hk : 1 ≤ k) :
    n / k + (if n / k * k < n then 1 else 0) = (n + k - 1) / k := by
  have hk0 : 0 < k := hk
  have hmod := Nat.mod_lt n hk0
  have hdm := Nat.div_add_mod n k
  have hcomm : n / k * k = k * (n / k) := Nat.mul_comm _ _
  by_cases hr : n % k = 0
  · have hcond : ¬ n / k * k < n := by omega
    rw [if_neg hcond]
    have h1 : n + k - 1 = k * (n / k) + (k - 1) := by omega
    have h2 : (k - 1) / k = 0 := Nat.div_eq_of_lt (by omega)
    rw [h1, Nat.mul_add_div hk0, h2]
  · have hcond : n / k * k < n := by omega
    rw [if_pos hcond]
    have h1 : n + k - 1 = k * (n / k) + (n % k - 1 + k) := by omega
    have h2 : (n % k - 1) / k = 0 := Nat.div_eq_of_lt (by omega)
    rw [h1, Nat.mul_add_div hk0, Nat.add_div_right _ hk0, h2]

theorem dataChunks_length (D : List Nat) (k : Nat) (hk : 1 ≤ k) :
    (dataChunks D k).length = (D.length + k - 1) / k := by
  rw [← ceil_div_eq D.length k hk]
  simp only [dataChunks, List.length_append, List.length_map, List.length_range]
  by_cases h : D.length / k * k < D.length <;> simp [h]

theorem dataChunks_take (D : List Nat) (k : Nat) :
    ∀ m, m * k ≤ D.length →
      ((List.range m).map (fun i => subSlice D (i * k) (i * k + k))).flatten =
        D.take (m * k) := by
  intro m
  induction m with
  | zero => intro _; simp
  | succ m ih =>
    intro hm
    have hm' : m * k ≤ D.length := le_trans (by nlinarith) hm
    have : List.range (m + 1) = List.range m ++ [m] := by
      simpa using List.range_succ m
    rw [this, List.map_append, List.flatten_append, ih hm']
    show D.take (m * k) ++ (subSlice D (m * k) (m * k + k) ++ []) = _
    have hsub : subSlice D (m * k) (m * k + k) = (D.drop (m * k)).take k := by
      simp [subSlice]
    rw [hsub, List.append_nil, ← List.take_add]
    congr 1
    ring

theorem dataChunks_flatten (D : List Nat) (k : Nat) :
    (dataChunks D k).flatten = D := by
  have hck : D.length / k * k ≤ D.length := Nat.div_mul_le_self D.length k
  simp only [dataChunks, List.flatten_append]
  rw [dataChunks_take D k (D.length / k) hck]
  by_cases h : D.length / k * k < D.length
  · rw [if_pos h]
    have hsub : subSlice D (D.length / k * k) D.length =
        D.drop (D.length / k * k) := by
      have hlen : (D.drop (D.length / k * k)).length =
          D.length - D.length / k * k := by simp
      simp only [subSlice]
      exact List.take_of_length_le (by omega)
    simp [hsub]
  · rw [if_neg h]
    have : D.length ≤ D.length / k * k := by omega
    simp [List.take_of_length_le this]

theorem foldlDataLoop_eq_chunkRun (ap : ApplyFn) (walk : List Nat) (sz : Nat) :
    ∀ fuel i acc, foldlDataLoop ap walk sz i fuel acc =
      chunkRun ap ((List.range' i fuel).map
        (fun j => subSlice walk (j * sz) (j * sz + sz))) acc := by
  intro fuel
  induction fuel with
  | zero => intro i acc; rfl
  | succ fuel ih =>
    intro i acc
    rw [List.range'_succ i fuel 1]
    simp only [foldlDataLoop, List.map_cons, chunkRun]
    cases ap [.data (subSlice walk (i * sz) (i * sz + sz)), acc] with
    | mk a e => cases e <;> simp [ih]

theorem chunkRun_append (ap : ApplyFn) :
    ∀ l1 l2 acc, chunkRun ap (l1 ++ l2) acc =
      match chunkRun ap l1 acc with
      | (a, some e) => (a, some e)
      | (a, none) => chunkRun ap l2 a := by
  intro l1
  induction l1 with
  | nil => intro l2 acc; rfl
  | cons c cs ih =>
    intro l2 acc
    simp only [List.cons_append, chunkRun]
    cases ap [.data c, acc] with
    | mk a e => cases e <;> simp [ih]

theorem foldlData_eq_chunkRun (ap : ApplyFn) (D : List Nat) (acc : Sexp) (k : Nat) :
    FoldlData ap D acc k = chunkRun ap (dataChunks D k) acc := by
  have hloop := foldlDataLoop_eq_chunkRun ap D k (D.length / k) 0 acc
  rw [← List.range_eq_range'] at hloop
  cases hc : chunkRun ap ((List.range (D.length / k)).map
      (fun j => subSlice D (j * k) (j * k + k))) acc with
  | mk a e =>
    have hl : foldlDataLoop ap D k 0 (D.length / k) acc = (a, e) := by rw [hloop, hc]
    simp only [FoldlData, dataChunks, hl, chunkRun_append, hc]
    cases e with
    | some err => rfl
    | none =>
      by_cases h : D.length / k * k < D.length
      · simp only [if_pos h, chunkRun]
      · simp only [if_neg h, chunkRun]

theorem chunkRun_pure (ap : ApplyFn) (h : ∀ c a, (ap [.data c, a]).2 = none) :
    ∀ l acc, chunkRun ap l acc = (l.foldl (fun a c => (ap [.data c, a]).1) acc, none) := by
  intro l
  induction l with
  | nil => intro acc; rfl
  | cons c cs ih =>
    intro acc
    have hc : ap [.data c, acc] = ((ap [.data c, acc]).1, none) := by
      rw [← h c acc]
    simp only [chunkRun, List.foldl_cons]
    rw [hc]
    exact ih _

/-- C2: for every Data buffer D and chunk size k ≥ 1, `FoldlData` makes
one Apply call per chunk of `dataChunks D k` in order; that chunk list
has exactly ⌈len(D)/k⌉ entries and concatenates back to D; and
`FoldLFunction` with no fourth argument folds Data with chunk size 1. -/
theorem c2_foldl_data_chunking (D : List Nat) (k : Nat) (hk : 1 ≤ k) :
    (dataChunks D k).length = (D.length + k - 1) / k ∧
    (dataChunks D k).flatten = D ∧
    (∀ (ap : ApplyFn) acc, FoldlData ap D acc k = chunkRun ap (dataChunks D k) acc) ∧
    (∀ ap : ApplyFn, (∀ c a, (ap [.data c, a]).2 = none) → ∀ acc,
      FoldlData ap D acc k =
        ((dataChunks D k).foldl (fun a c => (ap [.data c, a]).1) acc, none)) ∧
    (∀ (ap : Nat → ApplyFn) foldlHash fid acc,
      FoldLFunction ap foldlHash [.data D, .func fid, acc] = FoldlData (ap fid) D acc 1) := by
  refine ⟨dataChunks_length D k hk, dataChunks_flatten D k,
    fun ap acc => foldlData_eq_chunkRun ap D acc k, fun ap hp acc => ?_, fun ap fh fid acc => rfl⟩
  rw [foldlData_eq_chunkRun, chunkRun_pure ap hp]

/-- Witness for C2 at D = [1,2,3,4,5], k = 2: three chunks, flattening
back to D, and the fold equals the chunk runner. -/
theorem c2_foldl_data_chunking_witness :
    (dataChunks [1, 2, 3, 4, 5] 2).length = 3 ∧
    (dataChunks [1, 2, 3, 4, 5] 2).flatten = [1, 2, 3, 4, 5] ∧
    FoldlData apArr [1, 2, 3, 4, 5] (.int 0) 2 =
      chunkRun apArr (dataChunks [1, 2, 3, 4, 5] 2) (.int 0) := by
  have h := c2_foldl_data_chunking [1, 2, 3, 4, 5] 2 (by decide)
  exact ⟨h.1.trans (by decide), h.2.1, h.2.2.1 apArr (.int 0)⟩

/-- The numeric operator enumeration of the value model (Add is the Go
zero value, what `var op NumericOp` holds before the name switch). -/
inductive NumericOp where
  | Add : NumericOp
  | Sub : NumericOp
  | Mult : NumericOp
  | Div : NumericOp
deriving DecidableEq

/-- The integer operator enumeration (ShiftLeft is the Go zero value). -/
inductive IntegerOp where
  | ShiftLeft : IntegerOp
  | ShiftRightArith : IntegerOp
  | ShiftRightLog : IntegerOp
  | Modulo : IntegerOp
  | BitAnd : IntegerOp
  | BitOr : IntegerOp
  | BitXor : IntegerOp
deriving DecidableEq

/-- The name switch of `NumericFunction` (unlisted names leave the Go
zero value Add in place). -/
def numericOpOfName (name : String) : NumericOp :=
  if name = "+" then .Add
  else if name = "-" then .Sub
  else if name = "*" then .Mult
  else if name = "/" then .Div
  else .Add

/-- The name switch of `BitwiseFunction` (unlisted names leave the Go
zero value ShiftLeft in place). -/
def bitwiseOpOfName (name : String) : IntegerOp :=
  if name = "bit-and" then .BitAnd
  else if name = "bit-or" then .BitOr
  else if name = "bit-xor" then .BitXor
  else .ShiftLeft

/-- The fold loop shared by `NumericFunction`: on an error from
`NumericDo` the Go code returns `(SexpNull, err)`. -/
def numericLoop (numericDo : NumericOp → Sexp → Sexp → Sexp × Option Err)
    (op : NumericOp) : Sexp → List Sexp → Sexp × Option Err
  | accum, [] => (accum, none)
  | accum, expr :: rest =>
    match numericDo op accum expr with
    | (_, some e) => (.null, some e)
    | (a2, none) => numericLoop numericDo op a2 rest

/-- The fold loop of `BitwiseFunction` (same shape, over `IntegerDo`). -/
def bitwiseLoop (integerDo : IntegerOp → Sexp → Sexp → Sexp × Option Err)
    (op : IntegerOp) : Sexp → List Sexp → Sexp × Option Err
  | accum, [] => (accum, none)
  | accum, expr :: rest =>
    match integerDo op accum expr with
    | (_, some e) => (.null, some e)
    | (a2, none) => bitwiseLoop integerDo op a2 rest

/-- `NumericFunction` (listutils.go): fewer than 1 argument signals
WrongNargs; otherwise left-folds `NumericDo` (value-model code outside
the embedded files, the `numericDo` parameter) over the arguments
starting from the first. -/
def NumericFunction (numericDo : NumericOp → Sexp → Sexp → Sexp × Option Err)
    (name : String) (args : List Sexp) : Sexp × Option Err :=
  match args with
  | [] => (.null, some .wrongNargs)
  | first :: rest => numericLoop numericDo (numericOpOfName name) first rest

/-- `BitwiseFunction` (listutils.go): an argument count different from 2
signals WrongNargs; otherwise left-folds `IntegerDo` over the (exactly
two) arguments starting from the first. -/
def BitwiseFunction (integerDo : IntegerOp → Sexp → Sexp → Sexp × Option Err)
    (name : String) (args : List Sexp) : Sexp × Option Err :=
  if args.length ≠ 2 then (.null, some .wrongNargs)
  else
    match args with
    | [] => (.null, some .wrongNargs)
    | first :: rest => bitwiseLoop integerDo (bitwiseOpOfName name) first rest

/-- Modelled from the spec: the bitwise members of the Integer operator
family (§4.1) on Int operands, used only to instantiate the abstract
`IntegerDo` parameter in closed statements (shifts, Modulo and Char
operands are not exercised by any claim and yield TypeMismatch here). -/
def integerDoModel (op : IntegerOp) (a b : Sexp) : Sexp × Option Err :=
  match a, b with
  | .int x, .int y =>
    match op with
    | .BitAnd => (.int (Int.land x y), none)
    | .BitOr => (.int (Int.lor x y), none)
    | .BitXor => (.int (Int.xor x y), none)
    | _ => (.null, some .wrongType)
  | _, _ => (.null, some .wrongType)

/-- Modelled from the spec: the Numeric operator family (§4.1) on Int
operands, used only to instantiate the abstract `NumericDo` parameter
in closed statements. -/
def numericDoModel (op : NumericOp) (a b : Sexp) : Sexp × Option Err :=
  match a, b with
  | .int x, .int y =>
    match op with
    | .Add => (.int (x + y), none)
    | .Sub => (.int (x - y), none)
    | .Mult => (.int (x * y), none)
    | .Div =>
      if y = 0 then (.null, some (.msg "division by zero")) else (.int (x / y), none)
  | _, _ => (.null, some .wrongType)

/-- C4 counterexample: `bit-and` applied to three arguments is rejected
with WrongNargs by the code (`len(args) != 2`), not accepted and folded
as the claim states. -/
theorem c4_bitwise_threeargs_counterexample :
    BitwiseFunction integerDoModel "bit-and" [.int 1, .int 3, .int 5] =
      (.null, some .wrongNargs) := rfl

theorem numericLoop_pure (numericDo : NumericOp → Sexp → Sexp → Sexp × Option Err)
    (op : NumericOp) (h : ∀ a b, (numericDo op a b).2 = none) :
    ∀ rest acc, numericLoop numericDo op acc rest =
      (rest.foldl (fun a e => (numericDo op a e).1) acc, none) := by
  intro rest
  induction rest with
  | nil => intro acc; rfl
  | cons x xs ih =>
    intro acc
    have hx : numericDo op acc x = ((numericDo op acc x).1, none) := by
      rw [← h acc x]
    simp only [numericLoop, List.foldl_cons]
    rw [hx]
    exact ih _

/-- C4 amended: `+`,`-`,`*`,`/` left-fold `NumericDo` across all
arguments starting from the first and signal WrongArity exactly on zero
arguments; `bit-and`/`bit-or`/`bit-xor` signal WrongArity exactly when
the argument count differs from 2, and on exactly two arguments perform
the single fold step `integerDo op a b` (an error being mapped to
(Null, err)). -/
theorem c4_reducing_builtin_arity (numericDo : NumericOp → Sexp → Sexp → Sexp × Option Err)
    (integerDo : IntegerOp → Sexp → Sexp → Sexp × Option Err) (name : String) :
    NumericFunction numericDo name [] = (.null, some .wrongNargs) ∧
    (∀ first rest, NumericFunction numericDo name (first :: rest) =
      numericLoop numericDo (numericOpOfName name) first rest) ∧
    (∀ op, (∀ a b, (numericDo op a b).2 = none) → ∀ rest acc,
      numericLoop numericDo op acc rest =
        (rest.foldl (fun a e => (numericDo op a e).1) acc, none)) ∧
    (∀ args, args.length ≠ 2 →
      BitwiseFunction integerDo name args = (.null, some .wrongNargs)) ∧
    (∀ a b, BitwiseFunction integerDo name [a, b] =
      match integerDo (bitwiseOpOfName name) a b with
      | (_, some e) => (.null, some e)
      | (v, none) => (v, none)) := by
  refine ⟨rfl, fun first rest => rfl, numericLoop_pure numericDo,
    fun args hne => ?_, fun a b => ?_⟩
  · simp [BitwiseFunction, hne]
  · show bitwiseLoop integerDo (bitwiseOpOfName name) a [b] = _
    simp only [bitwiseLoop]

/-- Witness for C4: zero-argument `+` and one-argument `bit-and` signal
WrongNargs; two-argument `bit-and` folds to the bitwise conjunction. -/
theorem c4_reducing_builtin_arity_witness :
    NumericFunction numericDoModel "+" [] = (.null, some .wrongNargs) ∧
    BitwiseFunction integerDoModel "bit-and" [.int 1] = (.null, some .wrongNargs) ∧
    BitwiseFunction integerDoModel "bit-and" [.int 6, .int 3] = (.int 2, none) := by
  have h := c4_reducing_builtin_arity numericDoModel integerDoModel "+"
  have h2 := c4_reducing_builtin_arity numericDoModel integerDoModel "bit-and"
  exact ⟨h.1, h2.2.2.2.1 [.int 1] (by decide),
    (h2.2.2.2.2 (.int 6) (.int 3)).trans rfl⟩

/-- The `w` low-order bytes of `u`, least significant first (the layout
`encoding/binary.Write` produces for little-endian integers). -/
def natLEBytes : Nat → Nat → List Nat
  | 0, _ => []
  | w + 1, u => u % 256 :: natLEBytes w (u / 256)

/-- Little-endian byte decoding, inverse of `natLEBytes` below its width. -/
def leToNat : List Nat → Nat
  | [] => 0
  | b :: bs => b + 256 * leToNat bs

/-- `binary.Write(data, binary.LittleEndian, int64(n))`: the 8
little-endian bytes of n's two's-complement representation. -/
def toLE64 (n : Int) : List Nat := natLEBytes 8 (n % 2 ^ 64).toNat

/-- `binary.Read(buffer, binary.LittleEndian, &value)` for an `int64`
destination: decode the first 8 bytes as two's complement. -/
def fromLE64 (bs : List Nat) : Int :=
  let u := leToNat (bs.take 8)
  if u < 2 ^ 63 then (u : Int) else (u : Int) - 2 ^ 64

/-- Go's `bytes.Buffer.WriteRune`: the UTF-8 encoding of a valid Unicode
scalar value. -/
def utf8EncodeValid (c : Nat) : List Nat :=
  if c < 0x80 then [c]
  else if c < 0x800 then [0xC0 + c / 64, 0x80 + c % 64]
  else if c < 0x10000 then [0xE0 + c / 4096, 0x80 + c / 64 % 64, 0x80 + c % 64]
  else [0xF0 + c / 262144, 0x80 + c / 4096 % 64, 0x80 + c / 64 % 64, 0x80 + c % 64]

/-- `WriteRune` on an arbitrary rune: invalid runes (negative,
surrogate, or above U+10FFFF) are written as U+FFFD, as Go does. -/
def utf8Encode (c : Int) : List Nat :=
  if (0 ≤ c ∧ c < 0xD800) ∨ (0xDFFF < c ∧ c ≤ 0x10FFFF) then utf8EncodeValid c.toNat
  else utf8EncodeValid 0xFFFD

mutual

/-- `makeData` (listutils.go): serializes one value into the byte
buffer. Str/Data copy raw bytes; Int is 8 bytes little-endian; Float is
the 8 little-endian bytes of its IEEE-754 bit pattern; Bool one byte;
Char its UTF-8 encoding; Array and Pair recurse (elements in order,
head then tail); every other variant is the `fmt.Errorf` default case
(the formatted arguments are elided from the message). -/
def makeData : Sexp → Except Err (List Nat)
  | .array es => makeDataList es
  | .pair head tail =>
    match makeData head with
    | .error e => .error e
    | .ok b1 =>
      match makeData tail with
      | .error e => .error e
      | .ok b2 => .ok (b1 ++ b2)
  | .str bs => .ok bs
  | .data bs => .ok bs
  | .int n => .ok (toLE64 n)
  | .float bits => .ok (natLEBytes 8 bits)
  | .bool b => .ok [if b then 1 else 0]
  | .char c => .ok (utf8Encode c)
  | .null => .error (.msg "MakeData failed: unsupported type")
  | .symbol _ _ => .error (.msg "MakeData failed: unsupported type")
  | .hash _ => .error (.msg "MakeData failed: unsupported type")
  | .func _ => .error (.msg "MakeData failed: unsupported type")
  | .regexp _ => .error (.msg "MakeData failed: unsupported type")

/-- The Array loop of `makeData`: serialize each element in order,
aborting on the first error. -/
def makeDataList : List Sexp → Except Err (List Nat)
  | [] => .ok []
  | v :: vs =>
    match makeData v with
    | .error e => .error e
    | .ok b =>
      match makeDataList vs with
      | .error e => .error e
      | .ok rest => .ok (b ++ rest)

end

/-- Go's `name[0] == '?'` test selecting the coalescing variant
(registry names are nonempty). -/
def leadingMark (name : String) : Bool :=
  match name.data with
  | c :: _ => c == '?'
  | [] => false

/-- The argument loop of `MakeDataFunction`: the coalescing variant
skips empty arguments; each remaining argument is serialized into the
shared buffer, the first error aborting the whole call. -/
def makeDataArgs (coalesce : Bool) : List Sexp → Except Err (List Nat)
  | [] => .ok []
  | v :: vs =>
    if coalesce && IsEmpty v then makeDataArgs coalesce vs
    else
      match makeData v with
      | .error e => .error e
      | .ok b =>
        match makeDataArgs coalesce vs with
        | .error e => .error e
        | .ok rest => .ok (b ++ rest)

/-- `MakeDataFunction` (listutils.go): serializes all (non-skipped)
arguments in order into one Data buffer; on error it yields
`(SexpNull, err)` and no buffer. -/
def MakeDataFunction (name : String) (args : List Sexp) : Sexp × Option Err :=
  match makeDataArgs (leadingMark name) args with
  | .error e => (.null, some e)
  | .ok bs => (.data bs, none)

/-- The per-element result list built by the `cvert-int64` branch of
`ConvertFunction` (listutils.go). Data: `binary.Read` of a little-endian
int64 (fails on a buffer shorter than 8 bytes); Str: `strconv.Atoi`
(standard-library code, the `atoi` parameter); Float: truncation
(floating-point semantics, the `floatToInt` parameter, keyed by the bit
pattern); Bool: 1/0; anything else is the unimplemented-conversion
error. -/
def cvertInt64Loop (atoi : List Nat → Option Int) (floatToInt : Nat → Int) :
    List Sexp → Except Err (List Sexp)
  | [] => .ok []
  | arg :: rest =>
    match
      (match arg with
      | .data bs =>
        if 8 ≤ bs.length then Except.ok (Sexp.int (fromLE64 bs))
        else Except.error (Err.msg "failed converting arg into int")
      | .str bs =>
        match atoi bs with
        | some v => Except.ok (Sexp.int v)
        | none => Except.error (Err.msg "failed converting arg into int")
      | .float bits => Except.ok (Sexp.int (floatToInt bits))
      | .bool b => Except.ok (Sexp.int (if b then 1 else 0))
      | _ => Except.error (Err.msg "unable to convert arg into int; unimplemented")) with
    | .error e => .error e
    | .ok v =>
      match cvertInt64Loop atoi floatToInt rest with
      | .error e => .error e
      | .ok vs => .ok (v :: vs)

/-- `ConvertFunction` (listutils.go), restricted to the `cvert-int64`
branch settled by the claims; fewer than 1 argument signals WrongNargs.
The `cvert-str`, `cvert-int32`, `cvert-float32` and `cvert-float64`
branches (untouched by any claim, and resting on floating-point and
string parsing) are left unmodelled. -/
def ConvertFunction (atoi : List Nat → Option Int) (floatToInt : Nat → Int)
    (name : String) (args : List Sexp) : Sexp × Option Err :=
  if args.length < 1 then (.null, some .wrongNargs)
  else if name = "cvert-int64" then
    match cvertInt64Loop atoi floatToInt args with
    | .error e => (.null, some e)
    | .ok ret => (.array ret, none)
  else (.null, some (.msg "branch not modelled"))

/-- The element-collecting loop of coalescing `?append` on an Array
first argument: Go iterates over ALL operands (the first included),
skipping empty ones and appending each survivor as a single element. -/
def coalesceElems (t : List Sexp) (args : List Sexp) : List Sexp :=
  args.foldl (fun acc arg => if IsEmpty arg then acc else acc ++ [arg]) t

/-- `AppendFunction` (listutils.go): arity ≥ 2; the leading marker
character on the name selects coalescing. Array first argument: the
plain variant appends `args[1:]` as elements, the coalescing variant
appends every non-empty operand as an element; Str first argument:
folds `AppendStr` (string code outside the embedded files, the
`appendStr` parameter) over all operands, skipping empty ones when
coalescing (a Go `nil, err` return is modelled as `(Null, err)`);
Data first argument: delegates to `MakeDataFunction`. -/
def appendStrLoop (appendStr : List Nat → Sexp → List Nat × Option Err)
    (coalesce : Bool) : List Nat → List Sexp → Sexp × Option Err
  | t, [] => (.str t, none)
  | t, arg :: rest =>
    if coalesce && IsEmpty arg then appendStrLoop appendStr coalesce t rest
    else
      match appendStr t arg with
      | (_, some e) => (.null, some e)
      | (t2, none) => appendStrLoop appendStr coalesce t2 rest

def AppendFunction (appendStr : List Nat → Sexp → List Nat × Option Err)
    (name : String) (args : List Sexp) : Sexp × Option Err :=
  if args.length < 2 then (.null, some .wrongNargs)
  else
    match args with
    | (Sexp.array t) :: _ =>
      if leadingMark name then (.array (coalesceElems t args), none)
      else (.array (t ++ args.drop 1), none)
    | (Sexp.str t) :: _ => appendStrLoop appendStr (leadingMark name) t args
    | (Sexp.data _) :: _ => MakeDataFunction name args
    | _ => (.null, some (.msg "First argument of append must be array or string or data"))

/-- Concrete instantiation of the abstract `AppendStr` parameter for
closed statements; never consulted when the first operand is an Array. -/
def appendStrStub : List Nat → Sexp → List Nat × Option Err := fun t _ => (t, none)

/-- C5 counterexample: the coalescing append of §8 skips the Null and
empty-string operands but appends the operand arrays as single
elements, yielding array[[1],[2]] — not array[1,2] as claimed. -/
theorem c5_coalescing_append_counterexample :
    AppendFunction appendStrStub "?append"
      [.array [], .null, .array [.int 1], .str [], .array [.int 2]] =
      (.array [.array [.int 1], .array [.int 2]], none) ∧
    Sexp.array [.array [.int 1], .array [.int 2]] ≠ .array [.int 1, .int 2] := by
  refine ⟨rfl, fun h => ?_⟩
  injection h with h1
  injection h1 with h2 _
  exact Sexp.noConfusion h2

/-- C5 amended: coalescing ?append on an Array first operand silently
skips every empty operand (per §3's emptiness invariant) and appends
each remaining operand onto the array as a single element; skipping an
empty operand leaves the collected elements unchanged; the §8 call
therefore yields array[[1],[2]] (the operand arrays nested as
elements), with the Null and empty-string operands skipped and nothing
else inserted. -/
theorem c5_coalescing_append_skips_empty
    (appendStr : List Nat → Sexp → List Nat × Option Err)
    (t rest : List Sexp) (hrest : rest ≠ []) (l1 l2 : List Sexp) (x : Sexp)
    (hx : IsEmpty x = true) :
    AppendFunction appendStr "?append" (.array t :: rest) =
      (.array (coalesceElems t (.array t :: rest)), none) ∧
    coalesceElems t (l1 ++ x :: l2) = coalesceElems t (l1 ++ l2) ∧
    AppendFunction appendStr "?append"
      [.array [], .null, .array [.int 1], .str [], .array [.int 2]] =
      (.array [.array [.int 1], .array [.int 2]], none) := by
  have hm : leadingMark "?append" = true := rfl
  refine ⟨?_, ?_, rfl⟩
  · have hlen : ¬ (Sexp.array t :: rest).length < 2 := by
      cases rest with
      | nil => exact absurd rfl hrest
      | cons y ys => simp [List.length]
    simp [AppendFunction, hlen, hm]
    exact List.length_pos.mpr hrest
  · simp [coalesceElems, List.foldl_append, List.foldl_cons, hx]

/-- Witness for C5's amended statement at the §8 arguments. -/
theorem c5_coalescing_append_skips_empty_witness :
    AppendFunction appendStrStub "?append" [.array [], .null] =
      (.array (coalesceElems [] [.array [], .null]), none) ∧
    coalesceElems [] ([.null] ++ .str [] :: []) = coalesceElems [] ([.null] ++ []) ∧
    AppendFunction appendStrStub "?append"
      [.array [], .null, .array [.int 1], .str [], .array [.int 2]] =
      (.array [.array [.int 1], .array [.int 2]], none) :=
  c5_coalescing_append_skips_empty appendStrStub [] [.null] (by simp) [.null] [] (.str []) rfl

theorem natLEBytes_length : ∀ w u, (natLEBytes w u).length = w
  | 0, _ => rfl
  | w + 1, u => by simp [natLEBytes, natLEBytes_length w]

theorem leToNat_natLEBytes : ∀ w u, u < 2 ^ (8 * w) → leToNat (natLEBytes w u) = u := by
  intro w
  induction w with
  | zero => intro u hu; interval_cases u; rfl
  | succ w ih =>
    intro u hu
    have hdiv : u / 256 < 2 ^ (8 * w) := by
      apply Nat.div_lt_of_lt_mul
      calc u < 2 ^ (8 * (w + 1)) := hu
        _ = 256 * 2 ^ (8 * w) := by ring
    simp only [natLEBytes, leToNat, ih (u / 256) hdiv]
    omega

theorem fromLE64_toLE64 (n : Int) (h1 : -(2 ^ 63) ≤ n) (h2 : n < 2 ^ 63) :
    fromLE64 (toLE64 n) = n := by
  have e63i : ((2 : Int) ^ 63) = 9223372036854775808 := by norm_num
  have e64i : ((2 : Int) ^ 64) = 18446744073709551616 := by norm_num
  have e63n : ((2 : Nat) ^ 63) = 9223372036854775808 := by norm_num
  have e64n : ((2 : Nat) ^ 64) = 18446744073709551616 := by norm_num
  rw [e63i] at h1 h2
  have hnn : 0 ≤ n % 2 ^ 64 := Int.emod_nonneg n (by norm_num)
  have hlt : n % 2 ^ 64 < 2 ^ 64 := Int.emod_lt_of_pos n (by norm_num)
  have hub : (n % 2 ^ 64).toNat < 2 ^ 64 := by
    rw [e64n]; rw [e64i] at hlt; omega
  have hdecode := leToNat_natLEBytes 8 (n % 2 ^ 64).toNat (by simpa using hub)
  have htake : (natLEBytes 8 (n % 2 ^ 64).toNat).take 8 =
      natLEBytes 8 (n % 2 ^ 64).toNat :=
    List.take_of_length_le (by simp [natLEBytes_length])
  have hval : n % 2 ^ 64 = if 0 ≤ n then n else n + 2 ^ 64 := by
    by_cases hn : 0 ≤ n
    · rw [if_pos hn]
      exact Int.emod_eq_of_lt hn (by rw [e64i]; omega)
    · rw [if_neg hn]
      calc n % 2 ^ 64 = (n + 2 ^ 64 * 1) % (2 ^ 64) := (Int.add_mul_emod_self_left n _ 1).symm
        _ = n + 2 ^ 64 * 1 := Int.emod_eq_of_lt (by rw [e64i]; omega) (by rw [e64i]; omega)
        _ = n + 2 ^ 64 := by ring
  simp only [fromLE64, toLE64, htake, hdecode]
  rw [hval]
  by_cases hn : 0 ≤ n
  · rw [if_pos hn]
    have hc : n.toNat < 2 ^ 63 := by rw [e63n]; omega
    rw [if_pos hc]
    omega
  · rw [if_neg hn]
    have hc : ¬ (n + 2 ^ 64).toNat < 2 ^ 63 := by
      rw [e63n]; rw [e64i] at *; omega
    rw [if_neg hc]
    rw [e64i] at *
    omega

/-- Concrete instantiations of the standard-library parameters
(`strconv.Atoi`, float truncation) for closed statements; the Data
decode path consults neither. -/
def atoiStub : List Nat → Option Int := fun _ => none

/-- See `atoiStub`. -/
def floatToIntStub : Nat → Int := fun _ => 0

/-- C7: `make-data` serializes a 64-bit Int as exactly 8 little-endian
bytes, and `cvert-int64` applied to the resulting Data buffer returns
an Array holding exactly the single original Int. -/
theorem c7_int64_roundtrip (n : Int) (h1 : -(2 ^ 63) ≤ n) (h2 : n < 2 ^ 63)
    (atoi : List Nat → Option Int) (floatToInt : Nat → Int) :
    MakeDataFunction "make-data" [.int n] = (.data (toLE64 n), none) ∧
    (toLE64 n).length = 8 ∧
    ConvertFunction atoi floatToInt "cvert-int64" [.data (toLE64 n)] =
      (.array [.int n], none) := by
  have hm : leadingMark "make-data" = false := rfl
  have hlen : (toLE64 n).length = 8 := natLEBytes_length 8 _
  refine ⟨?_, hlen, ?_⟩
  · simp [MakeDataFunction, makeDataArgs, hm, makeData]
  · simp [ConvertFunction, cvertInt64Loop, hlen, fromLE64_toLE64 n h1 h2]

/-- Witness for C7 at n = 1000000007 (bytes 07 CA 9A 3B 00 00 00 00). -/
theorem c7_int64_roundtrip_witness :
    MakeDataFunction "make-data" [.int 1000000007] =
      (.data [7, 202, 154, 59, 0, 0, 0, 0], none) ∧
    ConvertFunction atoiStub floatToIntStub "cvert-int64"
      [.data [7, 202, 154, 59, 0, 0, 0, 0]] = (.array [.int 1000000007], none) := by
  have h := c7_int64_roundtrip 1000000007 (by norm_num) (by norm_num) atoiStub floatToIntStub
  have hb : toLE64 1000000007 = [7, 202, 154, 59, 0, 0, 0, 0] := by decide
  exact ⟨by rw [← hb]; exact h.1, by rw [← hb]; exact h.2.2⟩

mutual

/-- Does the value recursively contain a variant `makeData` rejects:
Function, Regexp, Hash, Symbol, or the Null sentinel? -/
def containsUnsupported : Sexp → Bool
  | .null => true
  | .symbol _ _ => true
  | .hash _ => true
  | .func _ => true
  | .regexp _ => true
  | .pair head tail => containsUnsupported head || containsUnsupported tail
  | .array es => containsUnsupportedList es
  | .bool _ => false
  | .int _ => false
  | .float _ => false
  | .char _ => false
  | .str _ => false
  | .data _ => false

/-- List form of `containsUnsupported`. -/
def containsUnsupportedList : List Sexp → Bool
  | [] => false
  | v :: vs => containsUnsupported v || containsUnsupportedList vs

end

mutual

theorem makeData_ok_iff : ∀ v : Sexp,
    (∃ b, makeData v = .ok b) ↔ containsUnsupported v = false
  | .null => by simp [makeData, containsUnsupported]
  | .symbol s k => by simp [makeData, containsUnsupported]
  | .hash i => by simp [makeData, containsUnsupported]
  | .func i => by simp [makeData, containsUnsupported]
  | .regexp i => by simp [makeData, containsUnsupported]
  | .bool b => by simp [makeData, containsUnsupported]
  | .int n => by simp [makeData, containsUnsupported]
  | .float f => by simp [makeData, containsUnsupported]
  | .char c => by simp [makeData, containsUnsupported]
  | .str s => by simp [makeData, containsUnsupported]
  | .data d => by simp [makeData, containsUnsupported]
  | .array es => by
    have ih := makeDataList_ok_iff es
    simpa [makeData, containsUnsupported] using ih
  | .pair head tail => by
    have ih1 := makeData_ok_iff head
    have ih2 := makeData_ok_iff tail
    constructor
    · rintro ⟨b, hb⟩
      simp only [makeData] at hb
      cases hh : makeData head with
      | error e => rw [hh] at hb; exact Except.noConfusion hb
      | ok b1 =>
        rw [hh] at hb
        cases ht : makeData tail with
        | error e => rw [ht] at hb; exact Except.noConfusion hb
        | ok b2 =>
          have c1 : containsUnsupported head = false := ih1.mp ⟨b1, hh⟩
          have c2 : containsUnsupported tail = false := ih2.mp ⟨b2, ht⟩
          simp [containsUnsupported, c1, c2]
    · intro hc
      simp only [containsUnsupported, Bool.or_eq_false_iff] at hc
      obtain ⟨b1, hb1⟩ := ih1.mpr hc.1
      obtain ⟨b2, hb2⟩ := ih2.mpr hc.2
      exact ⟨b1 ++ b2, by simp [makeData, hb1, hb2]⟩

theorem makeDataList_ok_iff : ∀ l : List Sexp,
    (∃ b, makeDataList l = .ok b) ↔ containsUnsupportedList l = false
  | [] => by simp [makeDataList, containsUnsupportedList]
  | v :: vs => by
    have ih1 := makeData_ok_iff v
    have ih2 := makeDataList_ok_iff vs
    constructor
    · rintro ⟨b, hb⟩
      simp only [makeDataList] at hb
      cases hh : makeData v with
      | error e => rw [hh] at hb; exact Except.noConfusion hb
      | ok b1 =>
        rw [hh] at hb
        cases ht : makeDataList vs with
        | error e => rw [ht] at hb; exact Except.noConfusion hb
        | ok b2 =>
          have c1 : containsUnsupported v = false := ih1.mp ⟨b1, hh⟩
          have c2 : containsUnsupportedList vs = false := ih2.mp ⟨b2, ht⟩
          simp [containsUnsupportedList, c1, c2]
    · intro hc
      simp only [containsUnsupportedList, Bool.or_eq_false_iff] at hc
      obtain ⟨b1, hb1⟩ := ih1.mpr hc.1
      obtain ⟨b2, hb2⟩ := ih2.mpr hc.2
      exact ⟨b1 ++ b2, by simp [makeDataList, hb1, hb2]⟩

end

theorem makeData_err_of_contains (v : Sexp) (hv : containsUnsupported v = true) :
    ∃ e, makeData v = .error e := by
  cases hm : makeData v with
  | error e => exact ⟨e, rfl⟩
  | ok b =>
    have := (makeData_ok_iff v).mp ⟨b, hm⟩
    rw [hv] at this
    exact Bool.noConfusion this

theorem makeDataArgs_err (v : Sexp) (hv : containsUnsupported v = true) :
    ∀ args, v ∈ args → ∃ e, makeDataArgs false args = .error e := by
  intro args
  induction args with
  | nil => intro hmem; exact absurd hmem (List.not_mem_nil v)
  | cons a rest ih =>
    intro hmem
    show ∃ e, (match makeData a with
      | .error e => .error e
      | .ok b =>
        match makeDataArgs false rest with
        | .error e => .error e
        | .ok bs => Except.ok (b ++ bs)) = (.error e : Except Err (List Nat))
    cases hma : makeData a with
    | error e => exact ⟨e, rfl⟩
    | ok b =>
      rcases List.mem_cons.mp hmem with heq | hmem'
      · subst heq
        obtain ⟨e, he⟩ := makeData_err_of_contains v hv
        rw [he] at hma
        exact Except.noConfusion hma
      · obtain ⟨e, he⟩ := ih hmem'
        rw [he]
        exact ⟨e, rfl⟩

/-- C8: `makeData` fails exactly on values that recursively contain a
Function, Regexp, Hash, Symbol or Null; Arrays and Pairs are serialized
by depth-first pre-order recursion — elements in order, head then tail,
the byte outputs concatenated with no length or type tags; and
`make-data` with any argument containing an unsupported variant yields
`(SexpNull, err)` — no buffer. -/
theorem c8_makedata_unsupported_preorder (v : Sexp) :
    ((∃ b, makeData v = .ok b) ↔ containsUnsupported v = false) ∧
    (∀ h t b1 b2, makeData h = .ok b1 → makeData t = .ok b2 →
      makeData (.pair h t) = .ok (b1 ++ b2)) ∧
    (∀ x xs bx bxs, makeData x = .ok bx → makeDataList xs = .ok bxs →
      makeData (.array (x :: xs)) = .ok (bx ++ bxs)) ∧
    makeData (.array []) = .ok [] ∧
    (∀ args, v ∈ args → containsUnsupported v = true →
      ∃ e, MakeDataFunction "make-data" args = (.null, some e)) := by
  refine ⟨makeData_ok_iff v, ?_, ?_, rfl, ?_⟩
  · intro h t b1 b2 h1 h2
    simp [makeData, h1, h2]
  · intro x xs bx bxs h1 h2
    show makeDataList (x :: xs) = _
    simp [makeDataList, h1, h2]
  · intro args hmem hv
    obtain ⟨e, he⟩ := makeDataArgs_err v hv args hmem
    have hm : leadingMark "make-data" = false := rfl
    refine ⟨e, ?_⟩
    simp [MakeDataFunction, hm, he]

/-- Witness for C8: serializing (true . "A") concatenates the Bool byte
and the raw string byte, and make-data of [1, func] fails with no
buffer. -/
theorem c8_makedata_unsupported_preorder_witness :
    makeData (.pair (.bool true) (.str [65])) = .ok [1, 65] ∧
    (∃ e, MakeDataFunction "make-data" [.int 1, .func 0] = (.null, some e)) := by
  have h := c8_makedata_unsupported_preorder (.func 0)
  exact ⟨h.2.1 (.bool true) (.str [65]) [1] [65] rfl rfl,
    h.2.2.2.2 [.int 1, .func 0] (by simp) rfl⟩

/-- `ArrayAccessFunction` (listutils.go), shared by `aget` and `aset!`:
fewer than 2 arguments signals WrongNargs; the first argument must be
an Array, the second an Int or Char index; the bounds check
`i < 0 || i >= len(arr)` precedes any access. `aget` returns `arr[i]`;
any other name (`aset!`) additionally requires exactly 3 arguments and
stores `args[2]` at index i. Go mutates the backing array in place; the
embedding returns alongside the (value, error) pair the backing array's
contents after the call — `some newContents` exactly when the single
store `arr[i] = args[2]` ran, `none` otherwise. -/
def ArrayAccessFunction (name : String) (args : List Sexp) :
    (Sexp × Option Err) × Option (List Sexp) :=
  if args.length < 2 then ((.null, some .wrongNargs), none)
  else
    match args with
    | arg0 :: arg1 :: _ =>
      match arg0 with
      | .array arr =>
        match (match arg1 with
          | .int n => some n
          | .char c => some c
          | _ => none) with
        | none => ((.null, some (.msg "Second argument of aget must be integer")), none)
        | some i =>
          if i < 0 ∨ (arr.length : Int) ≤ i then
            ((.null, some (.msg "Array index out of bounds")), none)
          else if name = "aget" then ((arr.getD i.toNat .null, none), none)
          else if args.length ≠ 3 then ((.null, some .wrongNargs), none)
          else ((.null, none), some (arr.set i.toNat (args.getD 2 .null)))
      | _ => ((.null, some (.msg "First argument of aget must be array")), none)
    | _ => ((.null, some .wrongNargs), none)

/-- C10: aget/aset! check bounds before any access: out of range
(i < 0 or i ≥ len) both return the index-out-of-bounds error and leave
the backing storage untouched; in range, aget returns a[i] and aset!
stores its third argument at index i; a Char index behaves exactly like
the Int of its code point. -/
theorem c10_array_access_bounds (arr : List Sexp) (i : Int) (v : Sexp) :
    (i < 0 ∨ (arr.length : Int) ≤ i →
      ArrayAccessFunction "aget" [.array arr, .int i] =
        ((.null, some (.msg "Array index out of bounds")), none) ∧
      ArrayAccessFunction "aset!" [.array arr, .int i, v] =
        ((.null, some (.msg "Array index out of bounds")), none)) ∧
    (0 ≤ i ∧ i < (arr.length : Int) →
      ArrayAccessFunction "aget" [.array arr, .int i] =
        ((arr.getD i.toNat .null, none), none) ∧
      ArrayAccessFunction "aset!" [.array arr, .int i, v] =
        ((.null, none), some (arr.set i.toNat v))) ∧
    (∀ (name : String) (c : Int) rest,
      ArrayAccessFunction name (.array arr :: .char c :: rest) =
        ArrayAccessFunction name (.array arr :: .int c :: rest)) := by
  refine ⟨fun hout => ?_, fun hin => ?_, fun name c rest => rfl⟩
  · constructor <;> simp [ArrayAccessFunction, hout]
  · have hout : ¬ (i < 0 ∨ (arr.length : Int) ≤ i) := by omega
    constructor <;> simp [ArrayAccessFunction, hout]

/-- Witness for C10 on the array [10, 20]: index 5 is rejected out of
bounds with the storage untouched, index 1 reads and writes in place. -/
theorem c10_array_access_bounds_witness :
    ArrayAccessFunction "aget" [.array [.int 10, .int 20], .int 5] =
      ((.null, some (.msg "Array index out of bounds")), none) ∧
    ArrayAccessFunction "aset!" [.array [.int 10, .int 20], .int 5, .int 7] =
      ((.null, some (.msg "Array index out of bounds")), none) ∧
    ArrayAccessFunction "aget" [.array [.int 10, .int 20], .int 1] =
      ((.int 20, none), none) ∧
    ArrayAccessFunction "aset!" [.array [.int 10, .int 20], .int 1, .int 7] =
      ((.null, none), some [.int 10, .int 7]) := by
  have h := c10_array_access_bounds [.int 10, .int 20] 5 (.int 7)
  have h2 := c10_array_access_bounds [.int 10, .int 20] 1 (.int 7)
  have hout := h.1 (by right; decide)
  have hin := h2.2.1 (by constructor <;> decide)
  exact ⟨hout.1, hout.2, hin.1, hin.2⟩

/-- Go slice expression `s[start:end]` as `SliceFunction` executes it
(capacity taken as the length): the sub-range when
0 ≤ start ≤ end ≤ len, and `none` — a Go runtime panic, not an error
return — otherwise. -/
def goSlice {α : Type} (l : List α) (start stop : Int) : Option (List α) :=
  if 0 ≤ start ∧ start ≤ stop ∧ stop ≤ (l.length : Int) then
    some ((l.take stop.toNat).drop start.toNat)
  else none

/-- `SliceFunction` (listutils.go): exactly 3 arguments; the second and
third must be Int or Char; dispatch on the first argument's variant and
evaluate the UNCHECKED Go slice expression `t[start:end]` — the code
performs no bounds test, so an out-of-range pair panics (`none`)
instead of returning an error. -/
def SliceFunction (args : List Sexp) : Option (Sexp × Option Err) :=
  if args.length ≠ 3 then some (.null, some .wrongNargs)
  else
    match args with
    | [seq, a1, a2] =>
      match (match a1 with
        | .int n => some n
        | .char c => some c
        | _ => none) with
      | none => some (.null, some (.msg "Second argument of slice must be integer"))
      | some start =>
        match (match a2 with
          | .int n => some n
          | .char c => some c
          | _ => none) with
        | none => some (.null, some (.msg "Third argument of slice must be integer"))
        | some stop =>
          match seq with
          | .array t => (goSlice t start stop).map (fun r => (.array r, none))
          | .str t => (goSlice t start stop).map (fun r => (.str r, none))
          | .data t => (goSlice t start stop).map (fun r => (.data r, none))
          | _ =>
            some (.null, some (.msg "First argument of slice must be of type - array, string, data"))
    | _ => some (.null, some .wrongNargs)

/-- C1 (code bug): slice(array[1,2,3], 1, 3) correctly yields
array[2,3], but slice(array[1,2,3], 1, 5) evaluates the unchecked Go
slice expression and panics; in general every out-of-range start/end
pair on an Array panics — no IndexOutOfBounds error value is ever
returned, contrary to the spec (§4.2, §7, §8). -/
theorem c1_slice_out_of_range_panics :
    SliceFunction [.array [.int 1, .int 2, .int 3], .int 1, .int 3] =
      some (.array [.int 2, .int 3], none) ∧
    SliceFunction [.array [.int 1, .int 2, .int 3], .int 1, .int 5] = none ∧
    (∀ (t : List Sexp) (start stop : Int),
      ¬ (0 ≤ start ∧ start ≤ stop ∧ stop ≤ (t.length : Int)) →
      SliceFunction [.array t, .int start, .int stop] = none) := by
  refine ⟨rfl, rfl, fun t start stop hout => ?_⟩
  simp [SliceFunction, goSlice, hout]

/-- Witness for C1's general out-of-range clause at array[1], 0, 2. -/
theorem c1_slice_out_of_range_panics_witness :
    SliceFunction [.array [.int 1], .int 0, .int 2] = none :=
  c1_slice_out_of_range_panics.2.2 [.int 1] 0 2 (by decide)

end Glisp
